import Mathlib

/- Shallow embedding of the rxnorm_boss pipeline (boss.py): attribute-value
   parsing, label indexing, grouping, statistics, and the script-embedding
   escape function.  Strings are modelled as lists of characters; the ASCII
   fragment of Python's regex character classes is used (all tokens the
   program matches against are ASCII). -/

abbrev Str := List Char

/-- Python regex word character `\w` (ASCII fragment): letter, digit or underscore. -/
def isWordChar (c : Char) : Bool := c.isAlphanum || c = '_'

/-- Whether `pre` is a prefix of `s`. -/
def startsWith : Str → Str → Bool
  | [], _ => true
  | _ :: _, [] => false
  | a :: xs, b :: ys => (a == b) && startsWith xs ys

/-- Whether `a` is a suffix of `s`. -/
def sufOf (a : Str) : Str → Bool
  | [] => a == []
  | c :: cs => a == (c :: cs) || sufOf a cs

/-- Whether `pat` appears as a contiguous substring of `s`. -/
def occurs (pat : Str) : Str → Bool
  | [] => startsWith pat []
  | c :: cs => startsWith pat (c :: cs) || occurs pat cs

/-- Split a string into its maximal leading digit run and the remainder. -/
def takeDigits : Str → Str × Str
  | [] => ([], [])
  | c :: cs =>
    if c.isDigit then
      let p := takeDigits cs
      (c :: p.1, p.2)
    else ([], c :: cs)

/-- Embeds `BRACED_RXCUI.search`: the digit run of the first `{digits}`
    occurrence (regex `\{(\d+)\}`), if any. -/
def bracedSearch : Str → Option Str
  | [] => none
  | c :: cs =>
    if c = '{' then
      match takeDigits cs with
      | ([], _) => bracedSearch cs
      | (d :: ds, '}' :: _) => some (d :: ds)
      | (_ :: _, _) => bracedSearch cs
    else bracedSearch cs

/-- Accumulator pass behind `DIGITS.findall` (regex `\b(\d+)\b`): `prevW` says
    whether the previous character was a word character, `cur` is the current
    digit run (reversed) when its left boundary was a word boundary. -/
def digitsAux : Bool → Option Str → Str → List Str
  | _, cur, [] => (match cur with | some ds => [ds.reverse] | none => [])
  | prevW, cur, c :: cs =>
    if c.isDigit then
      match cur with
      | some ds => digitsAux true (some (c :: ds)) cs
      | none => digitsAux true (if prevW then none else some [c]) cs
    else
      match cur with
      | some ds =>
        if isWordChar c then digitsAux (isWordChar c) none cs
        else ds.reverse :: digitsAux (isWordChar c) none cs
      | none => digitsAux (isWordChar c) none cs

/-- Embeds `DIGITS.findall`: all standalone (word-boundary delimited) digit runs. -/
def digitsFindall (s : Str) : List Str := digitsAux false none s

/-- The loop of `parse_ai_am_atv`: first digit token different from `scdc`
    (every token differs from `none`). -/
def firstDiff (scdc : Option Str) : List Str → Option Str
  | [] => none
  | d :: ds => if some d = scdc then firstDiff scdc ds else some d

/-- Embeds `parse_ai_am_atv`: braced referenced identifier, plus the first
    standalone digit token textually different from it. -/
def parse_ai_am_atv (atv : Str) : Option Str × Option Str :=
  if atv = [] then (none, none)
  else
    let scdc := bracedSearch atv
    (scdc, firstDiff scdc (digitsFindall atv))

/-- Word boundary to the right of a match: end of string or a non-word char. -/
def boundaryAfter : Str → Bool
  | [] => true
  | c :: _ => !isWordChar c

/-- A whole-word occurrence of `tok` starting at the head of `s` (right
    boundary checked here, left boundary checked by the caller). -/
def matchTok (tok s : Str) : Bool := startsWith tok s && boundaryAfter (s.drop tok.length)

/-- Scanning pass of `re.search` for `\btok\b`, for a `tok` made of word
    characters: `prevW` says whether the previous character was a word char. -/
def hasTokenAux (tok : Str) : Bool → Str → Bool
  | _, [] => false
  | prevW, c :: cs => (!prevW && matchTok tok (c :: cs)) || hasTokenAux tok (isWordChar c) cs

/-- Embeds `TOKEN_AI.search` / `TOKEN_AM.search` as a boolean. -/
def hasToken (tok s : Str) : Bool := hasTokenAux tok false s

def tokAI : Str := ['A', 'I']

def tokAM : Str := ['A', 'M']

/-- Embeds `parse_boss_from_atv`: braced referenced identifier, plus `"AI"`
    if a whole-word `AI` occurs, else `"AM"` if a whole-word `AM` occurs. -/
def parse_boss_from_atv (atv : Str) : Option Str × Option Str :=
  if atv = [] then (none, none)
  else (bracedSearch atv,
    if hasToken tokAI atv then some tokAI
    else if hasToken tokAM atv then some tokAM else none)

-- concrete evaluations checking the embedding against the program
example : parse_ai_am_atv ("{100} 200".toList) = (some "100".toList, some "200".toList) := by decide
example : parse_ai_am_atv ("{100} 100".toList) = (some "100".toList, none) := by decide
example : parse_ai_am_atv ("123".toList) = (none, some "123".toList) := by decide
example : parse_ai_am_atv ("a12 3".toList) = (none, some "3".toList) := by decide
example : parse_ai_am_atv ("12{34}".toList) = (some "34".toList, some "12".toList) := by decide
example : parse_ai_am_atv [] = (none, none) := by decide
example : parse_boss_from_atv ("{5} AI".toList) = (some "5".toList, some tokAI) := by decide
example : parse_boss_from_atv ("{5} AM AI".toList) = (some "5".toList, some tokAI) := by decide
example : parse_boss_from_atv ("{5} AMX".toList) = (some "5".toList, none) := by decide
example : parse_boss_from_atv ("{5} XAI x".toList) = (some "5".toList, none) := by decide
example : parse_boss_from_atv ("{5} AM".toList) = (some "5".toList, some tokAM) := by decide
example : bracedSearch ['{', '1', '{', '2', '}'] = some ['2'] := by decide
example : bracedSearch ("{12a} {3}".toList) = some "3".toList := by decide
example : digitsFindall ("12_ 9 x8".toList) = ["9".toList] := by decide

/- ---------- association maps (Python dict, insertion ordered) ---------- -/

/-- Dict lookup on an insertion-ordered association list. -/
def lookupA {α β : Type} [DecidableEq α] : List (α × β) → α → Option β
  | [], _ => none
  | (k, v) :: rest, x => if k = x then some v else lookupA rest x

/-- Dict assignment: replace in place, or append a missing key at the end. -/
def setA {α β : Type} [DecidableEq α] (k : α) (v : β) : List (α × β) → List (α × β)
  | [] => [(k, v)]
  | (k', v') :: rest => if k' = k then (k, v) :: rest else (k', v') :: setA k v rest

/- ---------- load_labels ---------- -/

abbrev PMap := List (Str × (Str × Str))

abbrev BMap := List (Str × List (Str × List Str))

def rxnormS : Str := "RXNORM".toList

def engS : Str := "ENG".toList

def yS : Str := "Y".toList

/-- Embeds `by_tty.setdefault(rxcui, \x7b\x7d).setdefault(tty, []).append(s)`. -/
def bttyAdd (cui tty s : Str) (bt : BMap) : BMap :=
  let inner := (lookupA bt cui).getD []
  let l := (lookupA inner tty).getD []
  setA cui (setA tty (l ++ [s]) inner) bt

/-- One iteration of the `load_labels` line loop, on an already-split line. -/
def loadStep (acc : PMap × BMap) (p : List Str) : PMap × BMap :=
  if p.length < 18 then acc
  else if p.getD 11 [] ≠ rxnormS then acc
  else if p.getD 1 [] ≠ engS then acc
  else if p.getD 16 [] = yS then acc
  else
    let rxcui := p.getD 13 []
    let tty := p.getD 12 []
    let s := p.getD 14 []
    let pref := p.getD 6 []
    if rxcui = [] then acc
    else
      let bt := bttyAdd rxcui tty s acc.2
      let prim :=
        if (lookupA acc.1 rxcui).isNone || pref = yS then setA rxcui (tty, s) acc.1
        else acc.1
      (prim, bt)

/-- Embeds `load_labels` over the split lines of the concept file. -/
def load_labels (lines : List (List Str)) : PMap × BMap := lines.foldl loadStep ([], [])

/- ---------- pickers ---------- -/

structure Disp where
  rxcui : Option Str
  tty : Option Str
  str : Option Str
deriving DecidableEq, Repr

/-- The `for tty in prefer_ttys` loop of `pick_preferred`. -/
def findPrefTty (inner : List (Str × List Str)) : List Str → Option (Str × List Str)
  | [] => none
  | t :: ts =>
    match lookupA inner t with
    | some l => some (t, l)
    | none => findPrefTty inner ts

/-- Embeds `pick_preferred` (the caller passes a string; `not rxcui` means
    the empty string). -/
def pick_preferred (rxcui : Str) (primary : PMap) (bt : BMap) (prefer_ttys : List Str) : Disp :=
  if rxcui = [] then ⟨none, none, none⟩
  else
    let hit :=
      if prefer_ttys ≠ [] then
        match lookupA bt rxcui with
        | some inner => findPrefTty inner prefer_ttys
        | none => none
      else none
    match hit with
    | some (tty, l) => ⟨some rxcui, some tty, some (l.getD 0 [])⟩
    | none =>
      match lookupA primary rxcui with
      | some (tty, s) => ⟨some rxcui, some tty, some s⟩
      | none => ⟨some rxcui, none, none⟩

def inS : Str := "IN".toList

def pinS : Str := "PIN".toList

/-- Embeds `pick_in_or_pin`. -/
def pick_in_or_pin (rxcui : Str) (primary : PMap) (bt : BMap) : Disp × Option Str :=
  let disp := pick_preferred rxcui primary bt [inS, pinS]
  let kind := if disp.tty = some inS ∨ disp.tty = some pinS then disp.tty else none
  (disp, kind)

/- ---------- build_groups ---------- -/

structure IngEntry where
  rxcui : Option Str
  tty : Option Str
  str : Option Str
  kind : Option Str
deriving DecidableEq, Repr

structure GroupB where
  parent : Disp
  scdc : Disp
  ai_list : List IngEntry
  am_list : List IngEntry
  boss_from : List Str
  raw_ai : List Str
  raw_am : List Str
  raw_boss : List Str
deriving DecidableEq, Repr

abbrev GMap := List ((Str × Str) × GroupB)

def atnAI : Str := "RXN_AI".toList

def atnAM : Str := "RXN_AM".toList

def atnBOSS : Str := "RXN_BOSS_FROM".toList

def scdcS : Str := "SCDC".toList

def sbdcS : Str := "SBDC".toList

/-- The dict literal passed to `groups.setdefault`. -/
def freshGroup (primary : PMap) (bt : BMap) (parent scdc : Str) : GroupB :=
  { parent := pick_preferred parent primary bt []
    scdc := pick_preferred scdc primary bt [scdcS, sbdcS]
    ai_list := []
    am_list := []
    boss_from := []
    raw_ai := []
    raw_am := []
    raw_boss := [] }

/-- Python set `add` on an insertion-ordered list model of a set. -/
def addSet (x : Str) (l : List Str) : List Str := if x ∈ l then l else l ++ [x]

/-- The entry appended to `ai_list`/`am_list`: `{**disp, "kind": kind}`. -/
def mkEntry (primary : PMap) (bt : BMap) (sub : Str) : IngEntry :=
  let dk := pick_in_or_pin sub primary bt
  ⟨dk.1.rxcui, dk.1.tty, dk.1.str, dk.2⟩

/-- One iteration of the `build_groups` line loop, on an already-split line. -/
def processLine (primary : PMap) (bt : BMap) (m : GMap) (p : List Str) : GMap :=
  if p.length < 13 then m
  else if p.getD 9 [] ≠ rxnormS then m
  else if p.getD 11 [] = yS then m
  else
    let atn := p.getD 8 []
    let parent := p.getD 5 []
    let atv := p.getD 10 []
    if atn = atnAI ∨ atn = atnAM then
      let pr := parse_ai_am_atv atv
      match pr.1 with
      | none => m
      | some scdc =>
        if scdc = [] then m
        else
          let key := (parent, scdc)
          let g0 := (lookupA m key).getD (freshGroup primary bt parent scdc)
          let g1 :=
            match pr.2 with
            | some sub =>
              if sub = [] then g0
              else if atn = atnAI then { g0 with ai_list := g0.ai_list ++ [mkEntry primary bt sub] }
              else { g0 with am_list := g0.am_list ++ [mkEntry primary bt sub] }
            | none => g0
          let g2 :=
            if atn = atnAI then { g1 with raw_ai := g1.raw_ai ++ [atv] }
            else { g1 with raw_am := g1.raw_am ++ [atv] }
          setA key g2 m
    else if atn = atnBOSS then
      let pr := parse_boss_from_atv atv
      match pr.1 with
      | none => m
      | some scdc =>
        if scdc = [] then m
        else
          let key := (parent, scdc)
          let g0 := (lookupA m key).getD (freshGroup primary bt parent scdc)
          let g1 :=
            match pr.2 with
            | some v => if v = [] then g0 else { g0 with boss_from := addSet v g0.boss_from }
            | none => g0
          let g2 := { g1 with raw_boss := g1.raw_boss ++ [atv] }
          setA key g2 m
    else m

/-- The accumulation phase of `build_groups`: the `groups` dict after the scan. -/
def buildMap (primary : PMap) (bt : BMap) (lines : List (List Str)) : GMap :=
  lines.foldl (processLine primary bt) []

/- ---------- finalize: explanation and rows ---------- -/

/-- Lexicographic `≤` on strings (Python string comparison, by code point). -/
def strLe : Str → Str → Bool
  | [], _ => true
  | _ :: _, [] => false
  | a :: xs, b :: ys => if a < b then true else if a = b then strLe xs ys else false

def insSorted (x : Str) : List Str → List Str
  | [] => [x]
  | y :: ys => if strLe x y then x :: y :: ys else y :: insSorted x ys

/-- Python `sorted` on a list of strings. -/
def sortStrs (l : List Str) : List Str := l.foldr insSorted []

structure RawAtv where
  ai : List Str
  am : List Str
  boss : List Str
deriving DecidableEq, Repr

structure Row where
  parent : Disp
  scdc : Disp
  ai : List IngEntry
  am : List IngEntry
  boss_from : List Str
  raw_atv : RawAtv
  explanation : Str
deriving DecidableEq, Repr

/-- Rendering of an optional string inside an f-string (`None` prints as "None"). -/
def fmtOpt (o : Option Str) : Str :=
  match o with
  | some s => s
  | none => "None".toList

/-- Embeds `x or '?'` on an optional string field. -/
def orQ (o : Option Str) : Str :=
  match o with
  | some s => if s = [] then "?".toList else s
  | none => "?".toList

/-- Embeds `x.get("str") or (x.get("rxcui") or "?")` for one entry. -/
def entryName (e : IngEntry) : Str :=
  match e.str with
  | some s => if s = [] then (match e.rxcui with
      | some c => if c = [] then "?".toList else c
      | none => "?".toList) else s
  | none =>
    match e.rxcui with
    | some c => if c = [] then "?".toList else c
    | none => "?".toList

/-- Embeds `", ".join(names) or "—"`. -/
def joinNames (l : List IngEntry) : Str :=
  let j := List.intercalate (", ".toList) (l.map entryName)
  if j = [] then "—".toList else j

/-- Embeds `build_explanation` over a finished row. -/
def build_explanation (parent scdc : Disp) (ai am : List IngEntry) (boss_from : List Str) : Str :=
  let boss := if boss_from ≠ [] then List.intercalate ("/".toList) boss_from else "—".toList
  "Parent ".toList ++ fmtOpt parent.rxcui ++ " (".toList ++ orQ parent.tty ++ ", ".toList
    ++ orQ parent.str ++ ") has BoSS component SCDC ".toList ++ fmtOpt scdc.rxcui
    ++ " (".toList ++ orQ scdc.tty ++ ", ".toList ++ orQ scdc.str
    ++ ") with RXN_AI → [".toList ++ joinNames ai ++ "] and RXN_AM → [".toList ++ joinNames am
    ++ "]. RXN_BOSS_FROM indicates strength measured from: ".toList ++ boss ++ ".".toList

/-- The finalization loop of `build_groups`: one group map entry to one row. -/
def finalizeG (g : GroupB) : Row :=
  let bf := sortStrs g.boss_from
  { parent := g.parent
    scdc := g.scdc
    ai := g.ai_list
    am := g.am_list
    boss_from := bf
    raw_atv := ⟨g.raw_ai, g.raw_am, g.raw_boss⟩
    explanation := build_explanation g.parent g.scdc g.ai_list g.am_list bf }

/-- Embeds `build_groups`: accumulate the group map over the attribute lines,
    then finalize each group in insertion order. -/
def build_groups (primary : PMap) (bt : BMap) (lines : List (List Str)) : List Row :=
  (buildMap primary bt lines).map (fun kv => finalizeG kv.2)

/- ---------- compute_stats ---------- -/

inductive StatVal where
  | num (n : Nat)
  | cp (count : Nat) (pct : ℚ)
deriving DecidableEq, Repr

def aiK : Str := "AI".toList

def amK : Str := "AM".toList

/-- Embeds `_ai_am_sets`, first component: the set of truthy `rxcui` values
    of the ingredient entries. -/
def aiSetC (r : Row) : Finset Str :=
  r.ai.foldl (fun s e =>
    match e.rxcui with
    | some c => if c = [] then s else insert c s
    | none => s) ∅

/-- Embeds `_ai_am_sets`, second component. -/
def amSetC (r : Row) : Finset Str :=
  r.am.foldl (fun s e =>
    match e.rxcui with
    | some c => if c = [] then s else insert c s
    | none => s) ∅

/-- The `diff_rows` filter condition: both sets truthy (non-empty) and different. -/
def diffCond (r : Row) : Bool :=
  decide (aiSetC r ≠ ∅) && decide (amSetC r ≠ ∅) && decide (aiSetC r ≠ amSetC r)

/-- Embeds `compute_stats`, with percentages in exact rational arithmetic;
    the result mapping is an association list keyed by the metric names. -/
def compute_stats (rows : List Row) : List (Str × StatVal) :=
  let n := rows.length
  let ai := rows.countP (fun r => decide (0 < r.ai.length))
  let am := rows.countP (fun r => decide (0 < r.am.length))
  let both := rows.countP (fun r => decide (0 < r.ai.length) && decide (0 < r.am.length))
  let ai_only := rows.countP (fun r => decide (0 < r.ai.length) && decide (r.am.length = 0))
  let am_only := rows.countP (fun r => decide (0 < r.am.length) && decide (r.ai.length = 0))
  let none_ := rows.countP (fun r => decide (r.ai.length = 0) && decide (r.am.length = 0))
  let boss_ai := rows.countP (fun r => decide (aiK ∈ r.boss_from))
  let boss_am := rows.countP (fun r => decide (amK ∈ r.boss_from))
  let boss_none := rows.countP (fun r => decide (r.boss_from.length = 0))
  let boss_ai_with_ai := rows.countP (fun r => decide (aiK ∈ r.boss_from) && decide (0 < r.ai.length))
  let boss_am_with_am := rows.countP (fun r => decide (amK ∈ r.boss_from) && decide (0 < r.am.length))
  let diff_rows := rows.filter diffCond
  let diff := diff_rows.length
  let boss_ai_diff := diff_rows.countP (fun r => decide (aiK ∈ r.boss_from))
  let boss_am_diff := diff_rows.countP (fun r => decide (amK ∈ r.boss_from))
  let pct : Nat → ℚ := fun x => if n ≠ 0 then 100 * (x : ℚ) / (n : ℚ) else 0
  let pct_diff : Nat → ℚ := fun x => if diff ≠ 0 then 100 * (x : ℚ) / (diff : ℚ) else 0
  [ ("total_groups".toList, .num n)
  , ("has_ai".toList, .cp ai (pct ai))
  , ("has_am".toList, .cp am (pct am))
  , ("has_both_ai_am".toList, .cp both (pct both))
  , ("ai_only".toList, .cp ai_only (pct ai_only))
  , ("am_only".toList, .cp am_only (pct am_only))
  , ("neither_ai_nor_am".toList, .cp none_ (pct none_))
  , ("boss_from_AI".toList, .cp boss_ai (pct boss_ai))
  , ("boss_from_AM".toList, .cp boss_am (pct boss_am))
  , ("boss_from_missing".toList, .cp boss_none (pct boss_none))
  , ("boss_AI_and_AI_present".toList, .cp boss_ai_with_ai (pct boss_ai_with_ai))
  , ("boss_AM_and_AM_present".toList, .cp boss_am_with_am (pct boss_am_with_am))
  , ("ai_am_different".toList, .cp diff (pct diff))
  , ("boss_from_AI_when_ai_am_different".toList, .cp boss_ai_diff (pct_diff boss_ai_diff))
  , ("boss_from_AM_when_ai_am_different".toList, .cp boss_am_diff (pct_diff boss_am_diff)) ]

/- ---------- _js_escape ---------- -/

/-- Python `str.replace` for a non-empty pattern: left-to-right,
    non-overlapping replacement of every occurrence. -/
def replace (pat repl : Str) : Str → Str
  | [] => []
  | c :: cs =>
    if h : pat ≠ [] ∧ startsWith pat (c :: cs) then
      repl ++ replace pat repl ((c :: cs).drop pat.length)
    else c :: replace pat repl cs
termination_by s => s.length
decreasing_by
  · have hp : 1 ≤ pat.length := by
      cases pat with
      | nil => exact absurd rfl h.1
      | cons a l => simp
    simp only [List.length_drop, List.length_cons]
    omega
  · simp

def u2028 : Char := ' '

def u2029 : Char := ' '

def rep2028 : Str := ['\\', 'u', '2', '0', '2', '8']

def rep2029 : Str := ['\\', 'u', '2', '0', '2', '9']

def patCmtOpen : Str := ['<', '!', '-', '-']

def repCmtOpen : Str := ['<', '\\', '!', '-', '-']

def patCmtClose : Str := ['-', '-', '>']

def repCmtClose : Str := ['-', '-', '\\', '>']

def patTagClose : Str := ['<', '/']

def repTagClose : Str := ['<', '\\', '/']

/-- Embeds `_js_escape`: the five chained replacements, in source order. -/
def js_escape (s : Str) : Str :=
  replace patTagClose repTagClose
    (replace patCmtClose repCmtClose
      (replace patCmtOpen repCmtOpen
        (replace [u2029] rep2029
          (replace [u2028] rep2028 s))))

-- concrete evaluations checking the embedding against the program
example : js_escape ("<!-- tricky -->".toList) = "<\\!-- tricky --\\>".toList := by
  simp [js_escape, replace, startsWith, u2028, u2029, patCmtOpen, patCmtClose, patTagClose,
    rep2028, rep2029, repCmtOpen, repCmtClose, repTagClose]
example : js_escape ("<!---->".toList) = "<\\!----\\>".toList := by
  simp [js_escape, replace, startsWith, u2028, u2029, patCmtOpen, patCmtClose, patTagClose,
    rep2028, rep2029, repCmtOpen, repCmtClose, repTagClose]
example : js_escape ("</script>".toList) = "<\\/script>".toList := by
  simp [js_escape, replace, startsWith, u2028, u2029, patCmtOpen, patCmtClose, patTagClose,
    rep2028, rep2029, repCmtOpen, repCmtClose, repTagClose]
example : js_escape ("<!-->".toList) = "<\\!--\\>".toList := by
  simp [js_escape, replace, startsWith, u2028, u2029, patCmtOpen, patCmtClose, patTagClose,
    rep2028, rep2029, repCmtOpen, repCmtClose, repTagClose]

/- ---------- C1 / C3: the dual-identifier grammar ---------- -/

theorem firstDiff_none (l : List Str) : firstDiff none l = l.head? := by
  cases l with
  | nil => rfl
  | cons d ds => simp [firstDiff]

theorem firstDiff_some (s : Str) (l : List Str) :
    firstDiff (some s) l = l.find? (fun d => !(d == s)) := by
  induction l with
  | nil => rfl
  | cons d ds ih =>
    by_cases h : d = s
    · subst h
      simp [firstDiff, List.find?, ih]
    · have hb : (d == s) = false := by simp [h]
      simp [firstDiff, List.find?, hb, h, ih]

/-- C1 counterexample: the value `"123"` has no bracket-delimited numeric
    token, yet `parse_ai_am_atv` returns a present secondary identifier, so
    the outputs are not both absent. -/
theorem parse_ai_am_no_brace_counterexample :
    bracedSearch ("123".toList) = none ∧
      parse_ai_am_atv ("123".toList) ≠ (none, none) := by
  constructor
  · decide
  · decide

/-- C1 (amended): for every attribute-value string with no bracket-delimited
    numeric token, `parse_ai_am_atv` returns the referenced identifier absent,
    and the secondary identifier is the first standalone numeric token of the
    value (absent only when the value has no standalone numeric token). -/
theorem parse_ai_am_no_brace_amended (atv : Str) (h : bracedSearch atv = none) :
    parse_ai_am_atv atv = (none, (digitsFindall atv).head?) := by
  by_cases hnil : atv = []
  · subst hnil
    rfl
  · simp only [parse_ai_am_atv, hnil, if_false, h, firstDiff_none]

/-- Witness for the amended C1 at the concrete value `"a 5"`. -/
theorem parse_ai_am_no_brace_amended_witness :
    bracedSearch ("a 5".toList) = none ∧
      parse_ai_am_atv ("a 5".toList) = (none, some ("5".toList)) := by
  refine ⟨by decide, ?_⟩
  exact (parse_ai_am_no_brace_amended ("a 5".toList) (by decide)).trans (by decide)

/-- C3: when a bracket-delimited numeric token exists, the dual-identifier
    grammar returns exactly that token as the referenced identifier, the
    secondary identifier is the first standalone numeric token textually
    different from it, and the secondary identifier is never equal to the
    referenced identifier. -/
theorem parse_ai_am_braced_spec (atv s : Str) (h : bracedSearch atv = some s) :
    (parse_ai_am_atv atv).1 = some s ∧
      (parse_ai_am_atv atv).2 = (digitsFindall atv).find? (fun d => !(d == s)) ∧
      ∀ t, (parse_ai_am_atv atv).2 = some t → t ≠ s := by
  have hnil : atv ≠ [] := by
    intro hn
    rw [hn] at h
    exact Option.noConfusion h
  have h1 : (parse_ai_am_atv atv).1 = some s := by
    simp only [parse_ai_am_atv, hnil, if_false, h]
  have h2 : (parse_ai_am_atv atv).2 = (digitsFindall atv).find? (fun d => !(d == s)) := by
    simp only [parse_ai_am_atv, hnil, if_false, h, firstDiff_some]
  refine ⟨h1, h2, ?_⟩
  intro t ht
  rw [h2] at ht
  have := List.find?_some ht
  simpa using this

/-- Witness for C3 at the concrete value `"{100} 100 200"`. -/
theorem parse_ai_am_braced_spec_witness :
    (parse_ai_am_atv ("{100} 100 200".toList)).1 = some ("100".toList) ∧
      ("200".toList : Str) ≠ ("100".toList : Str) := by
  refine ⟨(parse_ai_am_braced_spec ("{100} 100 200".toList) ("100".toList) (by decide)).1, ?_⟩
  exact (parse_ai_am_braced_spec ("{100} 100 200".toList) ("100".toList) (by decide)).2.2
    ("200".toList) (by decide)

/- ---------- C4: the source-tag grammar ---------- -/

theorem startsWith_iff (a : Str) : ∀ s : Str, startsWith a s = true ↔ ∃ t, s = a ++ t := by
  induction a with
  | nil =>
    intro s
    simp [startsWith]
  | cons x xs ih =>
    intro s
    cases s with
    | nil => simp [startsWith]
    | cons y ys =>
      simp only [startsWith, Bool.and_eq_true, beq_iff_eq, ih, List.cons_append]
      constructor
      · rintro ⟨rfl, t, rfl⟩
        exact ⟨t, rfl⟩
      · rintro ⟨t, heq⟩
        rw [List.cons.injEq] at heq
        exact ⟨heq.1.symm, t, heq.2⟩

/-- Left word-boundary condition for a match preceded by `pre`, where `prevW`
    records whether the character before `pre` is a word character. -/
def okLeft (prevW : Bool) : Str → Prop
  | [] => prevW = false
  | [c] => isWordChar c = false
  | _ :: c :: cs => okLeft prevW (c :: cs)

/-- Right word-boundary condition for a match followed by `post`. -/
def okR : Str → Prop
  | [] => True
  | c :: _ => isWordChar c = false

/-- A whole-word (word-boundary delimited) occurrence of `tok` inside `s`. -/
def standalone (tok s : Str) : Prop :=
  ∃ pre post, s = pre ++ tok ++ post ∧ okLeft false pre ∧ okR post

theorem okLeft_irrel (w1 w2 : Bool) : ∀ pre : Str, pre ≠ [] → (okLeft w1 pre ↔ okLeft w2 pre)
  | [], h => absurd rfl h
  | [c], _ => Iff.rfl
  | _ :: c :: cs, _ => okLeft_irrel w1 w2 (c :: cs) (by simp)

theorem boundaryAfter_true_iff (l : Str) : boundaryAfter l = true ↔ okR l := by
  cases l with
  | nil => simp [boundaryAfter, okR]
  | cons c cs => simp [boundaryAfter, okR]

theorem hasTokenAux_iff (tok : Str) (htok : tok ≠ []) :
    ∀ (s : Str) (prevW : Bool), hasTokenAux tok prevW s = true ↔
      ∃ pre post, s = pre ++ tok ++ post ∧ okLeft prevW pre ∧ okR post := by
  intro s
  induction s with
  | nil =>
    intro prevW
    simp only [hasTokenAux]
    constructor
    · intro h
      exact absurd h (by simp)
    · rintro ⟨pre, post, heq, -, -⟩
      have : pre ++ (tok ++ post) = [] := by
        rw [← List.append_assoc]
        exact heq.symm
      rcases List.append_eq_nil.mp this with ⟨-, h2⟩
      rcases List.append_eq_nil.mp h2 with ⟨h3, -⟩
      exact absurd h3 htok
  | cons c cs ih =>
    intro prevW
    simp only [hasTokenAux, Bool.or_eq_true, Bool.and_eq_true, Bool.not_eq_true']
    constructor
    · rintro (⟨hw, hm⟩ | hrec)
      · rw [matchTok, Bool.and_eq_true] at hm
        obtain ⟨hs, hb⟩ := hm
        obtain ⟨rest, hrest⟩ := (startsWith_iff tok (c :: cs)).mp hs
        refine ⟨[], rest, by simpa using hrest, ?_, ?_⟩
        · exact hw
        · rw [hrest, List.drop_left] at hb
          exact (boundaryAfter_true_iff rest).mp hb
      · obtain ⟨pre', post', heq, hl, hr⟩ := (ih (isWordChar c)).mp hrec
        refine ⟨c :: pre', post', by simp [heq], ?_, hr⟩
        cases pre' with
        | nil => exact hl
        | cons d ds => exact ((okLeft_irrel (isWordChar c) prevW (d :: ds)) (by simp)).mp hl
    · rintro ⟨pre, post, heq, hl, hr⟩
      cases pre with
      | nil =>
        left
        refine ⟨hl, ?_⟩
        simp only [List.nil_append] at heq
        rw [matchTok, Bool.and_eq_true]
        constructor
        · exact (startsWith_iff tok (c :: cs)).mpr ⟨post, heq⟩
        · rw [heq, List.drop_left]
          exact (boundaryAfter_true_iff post).mpr hr
      | cons d ds =>
        right
        rw [List.cons_append, List.cons_append, List.cons.injEq] at heq
        obtain ⟨rfl, heq2⟩ := heq
        refine (ih (isWordChar c)).mpr ⟨ds, post, by simp [heq2], ?_, hr⟩
        cases ds with
        | nil => exact hl
        | cons e es => exact ((okLeft_irrel prevW (isWordChar c) (e :: es)) (by simp)).mp hl

theorem hasToken_iff (tok : Str) (htok : tok ≠ []) (s : Str) :
    hasToken tok s = true ↔ standalone tok s :=
  hasTokenAux_iff tok htok s false

/-- C4: the source-tag grammar emits `"AI"` when the value has a whole-word
    `AI` token (tested first), else `"AM"` when it has a whole-word `AM`
    token, else nothing; whole-word means word-boundary delimited, so
    occurrences inside longer tokens never match, and a value containing both
    standalone tokens yields `"AI"`. -/
theorem parse_boss_from_spec (atv : Str) :
    ((parse_boss_from_atv atv).2 =
       if hasToken tokAI atv then some tokAI
       else if hasToken tokAM atv then some tokAM else none) ∧
      (hasToken tokAI atv = true ↔ standalone tokAI atv) ∧
      (hasToken tokAM atv = true ↔ standalone tokAM atv) := by
  refine ⟨?_, hasToken_iff tokAI (by decide) atv, hasToken_iff tokAM (by decide) atv⟩
  by_cases hnil : atv = []
  · subst hnil
    simp [parse_boss_from_atv, hasToken, hasTokenAux]
  · simp only [parse_boss_from_atv, hnil, if_false]

/- ---------- C6: load_labels and the primary mapping ---------- -/

theorem lookupA_setA_self {α β : Type} [DecidableEq α] (k : α) (v : β) :
    ∀ m : List (α × β), lookupA (setA k v m) k = some v := by
  intro m
  induction m with
  | nil => simp [setA, lookupA]
  | cons kv rest ih =>
    obtain ⟨k', v'⟩ := kv
    by_cases h : k' = k
    · subst h
      simp [setA, lookupA]
    · simp [setA, lookupA, h, ih]

theorem lookupA_setA_ne {α β : Type} [DecidableEq α] (k x : α) (v : β) (hx : x ≠ k) :
    ∀ m : List (α × β), lookupA (setA k v m) x = lookupA m x := by
  intro m
  have hkx : ¬ k = x := fun h => hx h.symm
  induction m with
  | nil => simp [setA, lookupA, hkx]
  | cons kv rest ih =>
    obtain ⟨k', v'⟩ := kv
    by_cases h : k' = k
    · subst h
      simp [setA, lookupA, hkx]
    · simp [setA, lookupA, h, ih]

theorem mem_keys_setA {α β : Type} [DecidableEq α] (k x : α) (v : β) :
    ∀ m : List (α × β), x ∈ (setA k v m).map Prod.fst ↔ x = k ∨ x ∈ m.map Prod.fst := by
  intro m
  induction m with
  | nil => simp [setA]
  | cons kv rest ih =>
    obtain ⟨k', v'⟩ := kv
    by_cases h : k' = k
    · subst h
      simp only [setA, eq_self_iff_true, if_true, List.map_cons, List.mem_cons]
      tauto
    · simp only [setA, h, if_false, List.map_cons, List.mem_cons, ih]
      try tauto

theorem nodup_keys_setA {α β : Type} [DecidableEq α] (k : α) (v : β) :
    ∀ m : List (α × β), (m.map Prod.fst).Nodup → ((setA k v m).map Prod.fst).Nodup := by
  intro m
  induction m with
  | nil => simp [setA]
  | cons kv rest ih =>
    obtain ⟨k', v'⟩ := kv
    intro hnd
    simp only [List.map_cons, List.nodup_cons] at hnd
    by_cases h : k' = k
    · subst h
      simpa [setA] using hnd
    · simp only [setA, h, if_false, List.map_cons, List.nodup_cons]
      refine ⟨?_, ih hnd.2⟩
      rw [mem_keys_setA]
      rintro (rfl | hmem)
      · exact h rfl
      · exact hnd.1 hmem

/-- Row-acceptance filter of the concept-file scan, as the spec states it. -/
def acceptedConso (p : List Str) : Bool :=
  decide (18 ≤ p.length) && (p.getD 11 [] == rxnormS) && (p.getD 1 [] == engS)
    && !(p.getD 16 [] == yS) && !(p.getD 13 [] == ([] : Str))

/-- The *primary*-mapping update rule as the spec states it: the first
    accepted row for an identifier sets the entry, a later accepted row
    overwrites it exactly when its preferred-flag is `"Y"`. -/
def primStep (cui : Str) (acc : Option (Str × Str)) (p : List Str) : Option (Str × Str) :=
  if acceptedConso p && (p.getD 13 [] == cui) then
    match acc with
    | none => some (p.getD 12 [], p.getD 14 [])
    | some v => if p.getD 6 [] = yS then some (p.getD 12 [], p.getD 14 []) else some v
  else acc

/-- Per-identifier content of the primary mapping, as the spec states it. -/
def primSpec (cui : Str) (lines : List (List Str)) : Option (Str × Str) :=
  lines.foldl (primStep cui) none

theorem acceptedConso_true_iff (p : List Str) :
    acceptedConso p = true ↔
      18 ≤ p.length ∧ p.getD 11 [] = rxnormS ∧ p.getD 1 [] = engS ∧
        p.getD 16 [] ≠ yS ∧ p.getD 13 [] ≠ [] := by
  simp [acceptedConso, and_assoc]

theorem loadStep_rejected (acc : PMap × BMap) (p : List Str)
    (hacc : acceptedConso p = false) : loadStep acc p = acc := by
  rw [Bool.eq_false_iff, Ne, acceptedConso_true_iff] at hacc
  simp only [loadStep]
  split_ifs with h1 h2 h3 h4 h5 h6
  all_goals try rfl
  all_goals exact absurd ⟨by omega, not_not.mp h2, not_not.mp h3, h4, h5⟩ hacc

theorem loadStep_accepted (acc : PMap × BMap) (p : List Str)
    (hacc : acceptedConso p = true) :
    loadStep acc p =
      (if (lookupA acc.1 (p.getD 13 [])).isNone ∨ p.getD 6 [] = yS then
          setA (p.getD 13 []) (p.getD 12 [], p.getD 14 []) acc.1
        else acc.1,
        bttyAdd (p.getD 13 []) (p.getD 12 []) (p.getD 14 []) acc.2) := by
  rw [acceptedConso_true_iff] at hacc
  obtain ⟨hlen, h11, h1, h16, h13⟩ := hacc
  simp only [loadStep]
  rw [if_neg (by omega), if_neg (not_not_intro h11), if_neg (not_not_intro h1),
    if_neg h16, if_neg h13]
  simp only [Bool.or_eq_true, decide_eq_true_eq, Option.isNone_iff_eq_none]
  try rfl

theorem loadStep_lookup (acc : PMap × BMap) (p : List Str) (cui : Str) :
    lookupA (loadStep acc p).1 cui = primStep cui (lookupA acc.1 cui) p := by
  cases hacc : acceptedConso p with
  | false =>
    rw [loadStep_rejected acc p hacc]
    simp only [primStep, hacc, Bool.false_and, Bool.false_eq_true, if_false]
  | true =>
    rw [loadStep_accepted acc p hacc]
    simp only [primStep, hacc, Bool.true_and]
    by_cases hcui : p.getD 13 [] = cui
    · have hbe : (p.getD 13 [] == cui) = true := beq_iff_eq.mpr hcui
      simp only [hbe, if_true]
      rw [hcui]
      cases hl : lookupA acc.1 cui with
      | none =>
        rw [if_pos (show (none : Option (Str × Str)).isNone = true ∨ p.getD 6 [] = yS from Or.inl rfl), lookupA_setA_self]
      | some v =>
        by_cases h7 : p.getD 6 [] = yS
        · rw [if_pos (Or.inr h7), lookupA_setA_self]
          exact (if_pos h7).symm
        · rw [if_neg ?hneg, hl]
          · exact (if_neg h7).symm
          case hneg =>
            rintro (habs | habs)
            · exact absurd habs (by simp)
            · exact h7 habs
    · have hbe : (p.getD 13 [] == cui) = false := beq_eq_false_iff_ne.mpr hcui
      simp only [hbe, Bool.false_eq_true, if_false]
      have hne : cui ≠ p.getD 13 [] := fun h => hcui h.symm
      split_ifs with hcond
      · exact lookupA_setA_ne _ _ _ hne acc.1
      · rfl

theorem load_aux (cui : Str) :
    ∀ (lines : List (List Str)) (acc : PMap × BMap),
      lookupA (lines.foldl loadStep acc).1 cui =
        lines.foldl (primStep cui) (lookupA acc.1 cui) := by
  intro lines
  induction lines with
  | nil => intro acc; rfl
  | cons p ls ih =>
    intro acc
    rw [List.foldl_cons, List.foldl_cons, ih, loadStep_lookup]

theorem loadStep_nodup (acc : PMap × BMap) (p : List Str) :
    (acc.1.map Prod.fst).Nodup → (((loadStep acc p).1).map Prod.fst).Nodup := by
  intro hnd
  cases hacc : acceptedConso p with
  | false => rw [loadStep_rejected acc p hacc]; exact hnd
  | true =>
    rw [loadStep_accepted acc p hacc]
    split_ifs with hcond
    · exact nodup_keys_setA _ _ acc.1 hnd
    · exact hnd

theorem load_nodup :
    ∀ (lines : List (List Str)) (acc : PMap × BMap),
      (acc.1.map Prod.fst).Nodup → (((lines.foldl loadStep acc).1).map Prod.fst).Nodup := by
  intro lines
  induction lines with
  | nil => intro acc h; exact h
  | cons p ls ih =>
    intro acc h
    rw [List.foldl_cons]
    exact ih _ (loadStep_nodup acc p h)

/-- C6: the primary mapping of the label index has at most one entry per
    identifier (its key list is duplicate-free), and the entry for any
    identifier is the fold of the spec's update rule over the accepted rows:
    the first accepted row sets it, a later accepted row overwrites it iff its
    preferred-flag is `"Y"` (so the last preferred row scanned wins, and a
    later non-preferred row never overrides). -/
theorem load_labels_primary_spec (lines : List (List Str)) (cui : Str) :
    ((load_labels lines).1.map Prod.fst).Nodup ∧
      lookupA (load_labels lines).1 cui = primSpec cui lines := by
  constructor
  · exact load_nodup lines ([], []) (by simp)
  · unfold load_labels primSpec
    rw [load_aux]
    rfl

/- ---------- C5 / C10: the grouping pass ---------- -/

theorem bracedSearch_ne_nil : ∀ (atv s : Str), bracedSearch atv = some s → s ≠ [] := by
  intro atv
  induction atv with
  | nil =>
    intro s h
    exact absurd h (by simp [bracedSearch])
  | cons c cs ih =>
    intro s h
    by_cases hc : c = '{'
    · simp only [bracedSearch, hc, if_true] at h
      split at h
      · exact ih s h
      · injection h with h2
        subst h2
        simp
      · exact ih s h
    · simp only [bracedSearch, hc, if_false] at h
      exact ih s h

theorem parse_ai_am_fst (atv : Str) : (parse_ai_am_atv atv).1 = bracedSearch atv := by
  by_cases hnil : atv = []
  · subst hnil
    rfl
  · simp [parse_ai_am_atv, hnil]

theorem parse_boss_fst (atv : Str) : (parse_boss_from_atv atv).1 = bracedSearch atv := by
  by_cases hnil : atv = []
  · subst hnil
    rfl
  · simp [parse_boss_from_atv, hnil]

theorem keys_processLine (primary : PMap) (bt : BMap) (m : GMap) (p : List Str) :
    ∀ k, k ∈ (processLine primary bt m p).map Prod.fst → k ∈ m.map Prod.fst ∨ k.2 ≠ [] := by
  intro k hk
  simp only [processLine] at hk
  repeat' split at hk
  all_goals first
    | exact Or.inl hk
    | (rw [mem_keys_setA] at hk
       rcases hk with rfl | hk
       exacts [Or.inr (by assumption), Or.inl hk])

/-- C5: throughout the grouping pass, every key in the group map carries a
    non-empty referenced identifier, and a row whose attribute value has no
    bracket-delimited numeric token is dropped: it leaves the group map
    unchanged (creates no group, appends to no bucket). -/
theorem build_groups_nonempty_key (primary : PMap) (bt : BMap) (lines : List (List Str)) :
    (∀ k, k ∈ (buildMap primary bt lines).map Prod.fst → k.2 ≠ []) ∧
      (∀ (m : GMap) (p : List Str), bracedSearch (p.getD 10 []) = none →
        processLine primary bt m p = m) := by
  constructor
  · have haux : ∀ (ls : List (List Str)) (m : GMap),
        (∀ k, k ∈ m.map Prod.fst → k.2 ≠ []) →
        ∀ k, k ∈ (ls.foldl (processLine primary bt) m).map Prod.fst → k.2 ≠ [] := by
      intro ls
      induction ls with
      | nil => intro m hm; exact hm
      | cons p ps ih =>
        intro m hm
        rw [List.foldl_cons]
        refine ih _ ?_
        intro k hk
        rcases keys_processLine primary bt m p k hk with h | h
        · exact hm k h
        · exact h
    exact haux lines [] (by simp)
  · intro m p hnone
    simp only [processLine, parse_ai_am_fst, parse_boss_fst, hnone]
    split_ifs <;> rfl

def pRowAI : List Str :=
  [[], [], [], [], [], "P1".toList, [], [], "RXN_AI".toList, "RXNORM".toList,
    "{100} 200".toList, [], []]

def pRowNoBrace : List Str :=
  [[], [], [], [], [], "P1".toList, [], [], "RXN_AI".toList, "RXNORM".toList,
    "no ids".toList, [], []]

/-- Witness for C5: a concrete accepted row creates the key `("P1","100")`
    with a non-empty referenced identifier, and a concrete row without a
    braced token leaves the empty group map unchanged. -/
theorem build_groups_nonempty_key_witness :
    ("100".toList ≠ ([] : Str)) ∧ processLine [] [] [] pRowNoBrace = [] := by
  constructor
  · exact (build_groups_nonempty_key [] [] [pRowAI]).1 ("P1".toList, "100".toList) (by decide)
  · exact (build_groups_nonempty_key [] [] [pRowAI]).2 [] pRowNoBrace (by decide)

/-- C10: an accepted provenance row whose value has a braced referenced
    identifier but yields no `"AI"`/`"AM"` token still fetches-or-creates the
    group at (owner, referenced), leaves its source-tag set unchanged, and
    appends the raw value to the provenance raw-value bucket. -/
theorem boss_row_no_token_spec (primary : PMap) (bt : BMap) (m : GMap) (p : List Str) (s : Str)
    (hlen : ¬ p.length < 13) (hsab : p.getD 9 [] = rxnormS) (hsup : p.getD 11 [] ≠ yS)
    (hatn : p.getD 8 [] = atnBOSS)
    (hparse : parse_boss_from_atv (p.getD 10 []) = (some s, none)) :
    ((lookupA (processLine primary bt m p) (p.getD 5 [], s)).isSome = true) ∧
      ((lookupA (processLine primary bt m p) (p.getD 5 [], s)).map (fun g => g.boss_from) =
        some (match lookupA m (p.getD 5 [], s) with
          | some g => g.boss_from
          | none => [])) ∧
      ((lookupA (processLine primary bt m p) (p.getD 5 [], s)).map (fun g => g.raw_boss) =
        some ((match lookupA m (p.getD 5 [], s) with
          | some g => g.raw_boss
          | none => []) ++ [p.getD 10 []])) := by
  have hs : s ≠ [] := by
    refine bracedSearch_ne_nil (p.getD 10 []) s ?_
    rw [← parse_boss_fst, hparse]
  have hmain : processLine primary bt m p =
      setA (p.getD 5 [], s)
        { (lookupA m (p.getD 5 [], s)).getD
            (freshGroup primary bt (p.getD 5 []) s) with
          raw_boss := ((lookupA m (p.getD 5 [], s)).getD
            (freshGroup primary bt (p.getD 5 []) s)).raw_boss ++ [p.getD 10 []] } m := by
    simp only [processLine, hparse, hatn]
    rw [if_neg hlen, if_neg (not_not_intro hsab), if_neg hsup,
      if_neg (show ¬(atnBOSS = atnAI ∨ atnBOSS = atnAM) by decide),
      if_pos trivial, if_neg hs]
  rw [hmain, lookupA_setA_self]
  cases hmk : lookupA m (p.getD 5 [], s) with
  | none => exact ⟨rfl, by simp [hmk, freshGroup], by simp [hmk, freshGroup]⟩
  | some g => exact ⟨rfl, by simp [hmk], by simp [hmk]⟩

def pRowBossNoTok : List Str :=
  [[], [], [], [], [], "P1".toList, [], [], "RXN_BOSS_FROM".toList, "RXNORM".toList,
    "{100} X".toList, [], []]

/-- Witness for C10 at a concrete provenance row with a braced token and no
    `AI`/`AM` token, starting from the empty group map: the created group has
    an empty source-tag set and a non-empty provenance raw-value bucket. -/
theorem boss_row_no_token_spec_witness :
    ((lookupA (processLine [] [] [] pRowBossNoTok) ("P1".toList, "100".toList)).map
        (fun g => g.boss_from) = some []) ∧
      ((lookupA (processLine [] [] [] pRowBossNoTok) ("P1".toList, "100".toList)).map
        (fun g => g.raw_boss) = some ["{100} X".toList]) := by
  have h := boss_row_no_token_spec [] [] [] pRowBossNoTok ("100".toList)
    (by decide) (by decide) (by decide) (by decide) (by decide)
  exact ⟨h.2.1.trans (by decide), h.2.2.trans (by decide)⟩

/- ---------- C2 / C7 / C8: compute_stats ---------- -/

/-- The set of referenced identifiers of a list of entries, as the spec states
    it: the present, non-empty identifiers, ignoring order and duplicates. -/
def idSetSpec (l : List IngEntry) : Finset Str :=
  ((l.filterMap IngEntry.rxcui).filter (fun c => decide (c ≠ []))).toFinset

theorem foldl_insert_eq_idSetSpec (l : List IngEntry) :
    ∀ s : Finset Str,
      l.foldl (fun s e =>
        match e.rxcui with
        | some c => if c = [] then s else insert c s
        | none => s) s = s ∪ idSetSpec l := by
  induction l with
  | nil =>
    intro s
    simp [idSetSpec]
  | cons e es ih =>
    intro s
    cases he : e.rxcui with
    | none =>
      simp only [List.foldl_cons, he, ih, idSetSpec, List.filterMap_cons_none he]
    | some c =>
      by_cases hc : c = []
      · subst hc
        simp only [List.foldl_cons, he, if_pos rfl, ih, idSetSpec,
          List.filterMap_cons_some he]
        simp
      · simp only [List.foldl_cons, he, if_neg hc, ih, idSetSpec,
          List.filterMap_cons_some he]
        rw [List.filter_cons_of_pos (by simpa using hc), List.toFinset_cons,
          Finset.insert_union, Finset.union_insert]

theorem aiSetC_eq (r : Row) : aiSetC r = idSetSpec r.ai := by
  rw [aiSetC, foldl_insert_eq_idSetSpec, Finset.empty_union]

theorem amSetC_eq (r : Row) : amSetC r = idSetSpec r.am := by
  rw [amSetC, foldl_insert_eq_idSetSpec, Finset.empty_union]

/-- The divergence condition, as the spec states it: the two identifier sets
    are both non-empty and differ as sets. -/
def divergentSpec (r : Row) : Bool :=
  decide (idSetSpec r.ai ≠ ∅) && decide (idSetSpec r.am ≠ ∅)
    && decide (idSetSpec r.ai ≠ idSetSpec r.am)

theorem diffCond_eq_divergentSpec (r : Row) : diffCond r = divergentSpec r := by
  rw [diffCond, divergentSpec, aiSetC_eq, amSetC_eq]

theorem filter_diffCond_eq (rows : List Row) :
    rows.filter diffCond = rows.filter divergentSpec :=
  List.filter_congr (fun r _ => diffCond_eq_divergentSpec r)

theorem lookup_stats_diff (rows : List Row) :
    lookupA (compute_stats rows) ("ai_am_different".toList) =
      some (.cp (rows.filter diffCond).length
        (if rows.length ≠ 0 then
          100 * ((rows.filter diffCond).length : ℚ) / (rows.length : ℚ)
        else 0)) := rfl

theorem lookup_stats_ai_diff (rows : List Row) :
    lookupA (compute_stats rows) ("boss_from_AI_when_ai_am_different".toList) =
      some (.cp ((rows.filter diffCond).countP (fun r => decide (aiK ∈ r.boss_from)))
        (if (rows.filter diffCond).length ≠ 0 then
          100 * (((rows.filter diffCond).countP (fun r => decide (aiK ∈ r.boss_from))) : ℚ) /
            ((rows.filter diffCond).length : ℚ)
        else 0)) := rfl

theorem lookup_stats_am_diff (rows : List Row) :
    lookupA (compute_stats rows) ("boss_from_AM_when_ai_am_different".toList) =
      some (.cp ((rows.filter diffCond).countP (fun r => decide (amK ∈ r.boss_from)))
        (if (rows.filter diffCond).length ≠ 0 then
          100 * (((rows.filter diffCond).countP (fun r => decide (amK ∈ r.boss_from))) : ℚ) /
            ((rows.filter diffCond).length : ℚ)
        else 0)) := rfl

/-- C2 (code bug): for every finished group list, the statistics mapping
    produced by `compute_stats` has no `parents_with_multiple_scdcs` entry —
    the per-owner multi-component metric asserted by the spec and by
    `test_parents_with_multiple_scdcs` is absent from the mapping. -/
theorem compute_stats_no_multi_owner_metric (rows : List Row) :
    lookupA (compute_stats rows) ("parents_with_multiple_scdcs".toList) = none := rfl

/-- C7: `compute_stats` takes the divergent subset to be the rows whose two
    identifier sets are both non-empty and differ as sets (order and
    duplicates ignored), and the two provenance-within-divergent percentages
    are 100·count divided by the divergent subset size, not by the total group
    count. -/
theorem compute_stats_divergent_denominator (rows : List Row) :
    (lookupA (compute_stats rows) ("ai_am_different".toList) =
      some (.cp (rows.filter divergentSpec).length
        (if rows.length ≠ 0 then
          100 * ((rows.filter divergentSpec).length : ℚ) / (rows.length : ℚ)
        else 0))) ∧
    (lookupA (compute_stats rows) ("boss_from_AI_when_ai_am_different".toList) =
      some (.cp ((rows.filter divergentSpec).countP (fun r => decide (aiK ∈ r.boss_from)))
        (if (rows.filter divergentSpec).length ≠ 0 then
          100 * (((rows.filter divergentSpec).countP
              (fun r => decide (aiK ∈ r.boss_from))) : ℚ) /
            ((rows.filter divergentSpec).length : ℚ)
        else 0))) ∧
    (lookupA (compute_stats rows) ("boss_from_AM_when_ai_am_different".toList) =
      some (.cp ((rows.filter divergentSpec).countP (fun r => decide (amK ∈ r.boss_from)))
        (if (rows.filter divergentSpec).length ≠ 0 then
          100 * (((rows.filter divergentSpec).countP
              (fun r => decide (amK ∈ r.boss_from))) : ℚ) /
            ((rows.filter divergentSpec).length : ℚ)
        else 0))) := by
  refine ⟨?_, ?_, ?_⟩
  · rw [← filter_diffCond_eq]
    exact lookup_stats_diff rows
  · rw [← filter_diffCond_eq]
    exact lookup_stats_ai_diff rows
  · rw [← filter_diffCond_eq]
    exact lookup_stats_am_diff rows

/-- C8: on the empty group list every percentage in the statistics mapping is
    0 (total-denominator case), and whenever the divergent subset is empty the
    two divergent-relative percentages are 0: no division by a zero
    denominator is ever performed. -/
theorem compute_stats_zero_denominator (rows : List Row) :
    compute_stats ([] : List Row) =
      [ ("total_groups".toList, .num 0)
      , ("has_ai".toList, .cp 0 0)
      , ("has_am".toList, .cp 0 0)
      , ("has_both_ai_am".toList, .cp 0 0)
      , ("ai_only".toList, .cp 0 0)
      , ("am_only".toList, .cp 0 0)
      , ("neither_ai_nor_am".toList, .cp 0 0)
      , ("boss_from_AI".toList, .cp 0 0)
      , ("boss_from_AM".toList, .cp 0 0)
      , ("boss_from_missing".toList, .cp 0 0)
      , ("boss_AI_and_AI_present".toList, .cp 0 0)
      , ("boss_AM_and_AM_present".toList, .cp 0 0)
      , ("ai_am_different".toList, .cp 0 0)
      , ("boss_from_AI_when_ai_am_different".toList, .cp 0 0)
      , ("boss_from_AM_when_ai_am_different".toList, .cp 0 0) ] ∧
    ((rows.filter divergentSpec).length = 0 →
      lookupA (compute_stats rows) ("boss_from_AI_when_ai_am_different".toList) =
          some (.cp 0 0) ∧
        lookupA (compute_stats rows) ("boss_from_AM_when_ai_am_different".toList) =
          some (.cp 0 0)) := by
  constructor
  · rfl
  · intro h
    have hf : rows.filter diffCond = [] := by
      rw [filter_diffCond_eq]
      exact List.length_eq_zero.mp h
    constructor
    · rw [lookup_stats_ai_diff, hf]
      simp
    · rw [lookup_stats_am_diff, hf]
      simp

def row0 : Row :=
  { parent := ⟨none, none, none⟩
    scdc := ⟨none, none, none⟩
    ai := []
    am := []
    boss_from := []
    raw_atv := ⟨[], [], []⟩
    explanation := [] }

/-- Witness for C8 at a concrete one-row list with an empty divergent subset:
    both divergent-relative percentages are 0. -/
theorem compute_stats_zero_denominator_witness :
    lookupA (compute_stats [row0]) ("boss_from_AI_when_ai_am_different".toList) =
        some (.cp 0 0) ∧
      lookupA (compute_stats [row0]) ("boss_from_AM_when_ai_am_different".toList) =
        some (.cp 0 0) :=
  (compute_stats_zero_denominator [row0]).2 (by decide)

/- ---------- C9: _js_escape never leaves a markup-breaking sequence ---------- -/

theorem startsWith_nil_false (P : Str) (hP : P ≠ []) : startsWith P [] = false := by
  cases P with
  | nil => exact absurd rfl hP
  | cons c cs => rfl

theorem sufOf_self (a : Str) : sufOf a a = true := by
  cases a with
  | nil => rfl
  | cons c cs => simp [sufOf]

theorem sufOf_cons_of (a : Str) (c : Char) (cs : Str) (h : sufOf a cs = true) :
    sufOf a (c :: cs) = true := by
  simp [sufOf, h]

theorem startsWith_append_left (P x y : Str) (h : startsWith P (x ++ y) = true)
    (hle : P.length ≤ x.length) : startsWith P x = true := by
  obtain ⟨t, ht⟩ := (startsWith_iff P (x ++ y)).mp h
  refine (startsWith_iff P x).mpr ⟨x.drop P.length, ?_⟩
  have htake : (x ++ y).take P.length = P := by
    rw [ht, List.take_left]
  rw [List.take_append_of_le_length hle] at htake
  conv_lhs => rw [← List.take_append_drop P.length x, htake]

theorem startsWith_proj (P x y : Str) (h : startsWith P (x ++ y) = true)
    (hle : x.length ≤ P.length) :
    P.take x.length = x ∧ startsWith (P.drop x.length) y = true := by
  obtain ⟨t, ht⟩ := (startsWith_iff P (x ++ y)).mp h
  constructor
  · have h1 : (P ++ t).take x.length = P.take x.length :=
      List.take_append_of_le_length hle
    rw [← ht, List.take_left] at h1
    exact h1.symm
  · refine (startsWith_iff _ y).mpr ⟨t, ?_⟩
    have h2 : (P ++ t).drop x.length = P.drop x.length ++ t :=
      List.drop_append_of_le_length hle
    rw [← ht, List.drop_left] at h2
    exact h2

theorem occurs_iff (P : Str) : ∀ s : Str, occurs P s = true ↔ ∃ x y, s = x ++ P ++ y := by
  intro s
  induction s with
  | nil =>
    rw [occurs, startsWith_iff]
    constructor
    · rintro ⟨t, ht⟩
      exact ⟨[], t, by simpa using ht⟩
    · rintro ⟨x, y, hxy⟩
      have : x ++ (P ++ y) = [] := by
        rw [← List.append_assoc]
        exact hxy.symm
      rcases List.append_eq_nil.mp this with ⟨rfl, h2⟩
      exact ⟨y, by simpa using hxy⟩
  | cons c cs ih =>
    rw [occurs, Bool.or_eq_true, startsWith_iff, ih]
    constructor
    · rintro (⟨t, ht⟩ | ⟨x, y, hxy⟩)
      · exact ⟨[], t, by simpa using ht⟩
      · exact ⟨c :: x, y, by simp [hxy]⟩
    · rintro ⟨x, y, hxy⟩
      cases x with
      | nil =>
        left
        exact ⟨y, by simpa using hxy⟩
      | cons d ds =>
        right
        rw [List.cons_append, List.cons_append, List.cons.injEq] at hxy
        exact ⟨ds, y, by simp [hxy.2]⟩

theorem occurs_cons_of (P : Str) (c : Char) (cs : Str) (h : occurs P cs = true) :
    occurs P (c :: cs) = true := by
  simp [occurs, h]

theorem occurs_append_right (P x y : Str) (h : occurs P y = true) :
    occurs P (x ++ y) = true := by
  obtain ⟨a, b, hab⟩ := (occurs_iff P y).mp h
  exact (occurs_iff P (x ++ y)).mpr ⟨x ++ a, b, by rw [hab]; simp⟩

theorem occurs_drop (P : Str) (n : Nat) (s : Str) (h : occurs P (s.drop n) = true) :
    occurs P s = true := by
  have := occurs_append_right P (s.take n) (s.drop n) h
  rwa [List.take_append_drop] at this

theorem occurs_of_startsWith (P s : Str) (h : startsWith P s = true) : occurs P s = true := by
  cases s with
  | nil => rw [occurs]; exact h
  | cons c cs => simp [occurs, h]

theorem occurs_append_cases (P : Str) (hP : P ≠ []) :
    ∀ (x y : Str), occurs P (x ++ y) = true →
      occurs P x = true ∨ occurs P y = true ∨
        ∃ k, 0 < k ∧ k < P.length ∧ sufOf (P.take k) x = true ∧
          startsWith (P.drop k) y = true := by
  intro x
  induction x with
  | nil =>
    intro y h
    exact Or.inr (Or.inl (by simpa using h))
  | cons c cs ih =>
    intro y h
    rw [show (c :: cs) ++ y = c :: (cs ++ y) from rfl, occurs, Bool.or_eq_true] at h
    rcases h with hsw | hrec
    · by_cases hle : P.length ≤ (c :: cs).length
      · left
        exact occurs_of_startsWith P (c :: cs)
          (startsWith_append_left P (c :: cs) y (by simpa using hsw) hle)
      · have hle' : (c :: cs).length ≤ P.length := by omega
        obtain ⟨htake, hdrop⟩ := startsWith_proj P (c :: cs) y (by simpa using hsw) hle'
        refine Or.inr (Or.inr ⟨(c :: cs).length, by simp, by omega, ?_, hdrop⟩)
        rw [htake]
        exact sufOf_self (c :: cs)
    · rcases ih y hrec with h1 | h2 | ⟨k, hk0, hkP, hsuf, hpre⟩
      · exact Or.inl (occurs_cons_of P c cs h1)
      · exact Or.inr (Or.inl h2)
      · exact Or.inr (Or.inr ⟨k, hk0, hkP, sufOf_cons_of _ c cs hsuf, hpre⟩)

theorem replace_prefix_cases (pat repl : Str) (hpat : pat ≠ []) :
    ∀ (cs u : Str), u ≠ [] → u.length ≤ repl.length →
      startsWith u (replace pat repl cs) = true →
      startsWith u cs = true ∨
        ∃ u1 u2, u = u1 ++ u2 ∧ u2 ≠ [] ∧ startsWith (u1 ++ pat) cs = true ∧
          startsWith u2 repl = true := by
  intro cs
  induction cs with
  | nil =>
    intro u hu hlen h
    simp only [replace] at h
    rw [startsWith_nil_false u hu] at h
    exact absurd h (by simp)
  | cons c cs' ih =>
    intro u hu hlen h
    by_cases hsw : startsWith pat (c :: cs') = true
    · have heq : replace pat repl (c :: cs') =
          repl ++ replace pat repl ((c :: cs').drop pat.length) := by
        simp only [replace]
        rw [dif_pos ⟨hpat, hsw⟩]
      rw [heq] at h
      have hur : startsWith u repl = true := startsWith_append_left u repl _ h hlen
      exact Or.inr ⟨[], u, rfl, hu, by simpa using hsw, hur⟩
    · have heq : replace pat repl (c :: cs') = c :: replace pat repl cs' := by
        simp only [replace]
        rw [dif_neg (by tauto)]
      rw [heq] at h
      cases u with
      | nil => exact absurd rfl hu
      | cons u0 us =>
        rw [startsWith, Bool.and_eq_true, beq_iff_eq] at h
        obtain ⟨rfl, hus⟩ := h
        by_cases husnil : us = []
        · subst husnil
          left
          simp [startsWith]
        · have hlen' : us.length ≤ repl.length := by
            simp only [List.length_cons] at hlen
            omega
          rcases ih us husnil hlen' hus with h1 | ⟨u1, u2, hequ, hu2, hsw2, hswr⟩
          · left
            rw [startsWith, Bool.and_eq_true]
            exact ⟨by simp, h1⟩
          · right
            refine ⟨u0 :: u1, u2, by rw [hequ]; rfl, hu2, ?_, hswr⟩
            rw [List.cons_append, startsWith, Bool.and_eq_true]
            exact ⟨by simp, hsw2⟩

theorem replace_preserves_absent (pat repl P : Str) (hpat : pat ≠ []) (hP : P ≠ [])
    (hlen : P.length ≤ repl.length + 1)
    (hrepl : occurs P repl = false)
    (hA : ∀ k, k < P.length → 0 < k → sufOf (P.take k) repl = false)
    (hB : ∀ j, j < P.length → 1 ≤ j → startsWith (P.drop j) repl = true →
      startsWith (P.drop j) pat = true) :
    ∀ s, occurs P s = false → occurs P (replace pat repl s) = false := by
  obtain ⟨p0, u, hPc⟩ := List.exists_cons_of_ne_nil hP
  have main : ∀ (n : Nat) (s : Str), s.length ≤ n → occurs P s = false →
      occurs P (replace pat repl s) = false := by
    intro n
    induction n with
    | zero =>
      intro s hle hocc
      have : s = [] := List.length_eq_zero.mp (by omega)
      subst this
      simpa only [replace] using hocc
    | succ n ihn =>
      intro s hle hocc
      cases s with
      | nil => simpa only [replace] using hocc
      | cons c cs =>
        have hplen : 1 ≤ pat.length := by
          cases pat with
          | nil => exact absurd rfl hpat
          | cons a l => simp
        rw [occurs, Bool.or_eq_false_iff] at hocc
        obtain ⟨hoccP, hocct⟩ := hocc
        by_cases hsw : startsWith pat (c :: cs) = true
        · have heq : replace pat repl (c :: cs) =
              repl ++ replace pat repl ((c :: cs).drop pat.length) := by
            simp only [replace]
            rw [dif_pos ⟨hpat, hsw⟩]
          rw [heq]
          have hdocc : occurs P ((c :: cs).drop pat.length) = false := by
            cases hx : occurs P ((c :: cs).drop pat.length) with
            | false => rfl
            | true =>
              have h1 := occurs_drop P pat.length (c :: cs) hx
              rw [occurs, hoccP, hocct] at h1
              exact absurd h1 (by simp)
          have hR : occurs P (replace pat repl ((c :: cs).drop pat.length)) = false := by
            refine ihn _ ?_ hdocc
            simp only [List.length_drop, List.length_cons]
            simp only [List.length_cons] at hle
            omega
          cases hfin : occurs P (repl ++ replace pat repl ((c :: cs).drop pat.length)) with
          | false => rfl
          | true =>
            exfalso
            rcases occurs_append_cases P hP repl _ hfin with h1 | h2 | ⟨k, hk0, hkP, hsuf, hpre⟩
            · rw [hrepl] at h1
              exact absurd h1 (by simp)
            · rw [hR] at h2
              exact absurd h2 (by simp)
            · rw [hA k hkP hk0] at hsuf
              exact absurd hsuf (by simp)
        · have heq : replace pat repl (c :: cs) = c :: replace pat repl cs := by
            simp only [replace]
            rw [dif_neg (by tauto)]
          rw [heq]
          have hR' : occurs P (replace pat repl cs) = false := by
            refine ihn cs ?_ hocct
            simp only [List.length_cons] at hle
            omega
          rw [occurs, Bool.or_eq_false_iff]
          refine ⟨?_, hR'⟩
          cases hfin : startsWith P (c :: replace pat repl cs) with
          | false => rfl
          | true =>
            exfalso
            rw [hPc, startsWith, Bool.and_eq_true, beq_iff_eq] at hfin
            obtain ⟨hp0, hu⟩ := hfin
            by_cases hunil : u = []
            · rw [hPc, hunil] at hoccP
              simp [startsWith, hp0] at hoccP
            · have hul : u.length ≤ repl.length := by
                have h3 : (p0 :: u).length ≤ repl.length + 1 := hPc ▸ hlen
                simp only [List.length_cons] at h3
                omega
              rcases replace_prefix_cases pat repl hpat cs u hunil hul hu with
                h1 | ⟨u1, u2, hequ, hu2, hsw2, hswr⟩
              · rw [hPc] at hoccP
                simp [startsWith, hp0, h1] at hoccP
              · have hj : P.drop (1 + u1.length) = u2 := by
                  rw [hPc, hequ]
                  rw [show (1 + u1.length) = u1.length + 1 from by omega]
                  rw [List.drop_succ_cons, List.drop_left]
                have hjlt : 1 + u1.length < P.length := by
                  rw [hPc, hequ]
                  simp only [List.length_cons, List.length_append]
                  have : 1 ≤ u2.length := by
                    cases u2 with
                    | nil => exact absurd rfl hu2
                    | cons a l => simp
                  omega
                have hBj := hB (1 + u1.length) hjlt (by omega) (by rw [hj]; exact hswr)
                rw [hj] at hBj
                obtain ⟨t, ht⟩ := (startsWith_iff _ _).mp hsw2
                obtain ⟨w, hw⟩ := (startsWith_iff _ _).mp hBj
                have hoccT : occurs P (c :: cs) = true := by
                  rw [occurs_iff]
                  refine ⟨[], w ++ t, ?_⟩
                  rw [ht, hw, hPc, hequ, hp0]
                  simp
                rw [occurs, hoccP, hocct] at hoccT
                exact absurd hoccT (by simp)
  intro s hocc
  exact main s.length s le_rfl hocc

theorem replace_removes (pat repl : Str) (hpat : pat ≠ [])
    (hlen : pat.length ≤ repl.length + 1)
    (hrepl : occurs pat repl = false)
    (hA : ∀ k, k < pat.length → 0 < k → sufOf (pat.take k) repl = false)
    (hBs : ∀ j, j < pat.length → 1 ≤ j → startsWith (pat.drop j) repl = false) :
    ∀ s, occurs pat (replace pat repl s) = false := by
  obtain ⟨p0, u, hPc⟩ := List.exists_cons_of_ne_nil hpat
  have main : ∀ (n : Nat) (s : Str), s.length ≤ n →
      occurs pat (replace pat repl s) = false := by
    intro n
    induction n with
    | zero =>
      intro s hle
      have : s = [] := List.length_eq_zero.mp (by omega)
      subst this
      simp only [replace, occurs]
      exact startsWith_nil_false pat hpat
    | succ n ihn =>
      intro s hle
      cases s with
      | nil =>
        simp only [replace, occurs]
        exact startsWith_nil_false pat hpat
      | cons c cs =>
        have hplen : 1 ≤ pat.length := by
          cases pat with
          | nil => exact absurd rfl hpat
          | cons a l => simp
        by_cases hsw : startsWith pat (c :: cs) = true
        · have heq : replace pat repl (c :: cs) =
              repl ++ replace pat repl ((c :: cs).drop pat.length) := by
            simp only [replace]
            rw [dif_pos ⟨hpat, hsw⟩]
          rw [heq]
          have hR : occurs pat (replace pat repl ((c :: cs).drop pat.length)) = false := by
            refine ihn _ ?_
            simp only [List.length_drop, List.length_cons]
            simp only [List.length_cons] at hle
            omega
          cases hfin : occurs pat (repl ++ replace pat repl ((c :: cs).drop pat.length)) with
          | false => rfl
          | true =>
            exfalso
            rcases occurs_append_cases pat hpat repl _ hfin with
              h1 | h2 | ⟨k, hk0, hkP, hsuf, hpre⟩
            · rw [hrepl] at h1
              exact absurd h1 (by simp)
            · rw [hR] at h2
              exact absurd h2 (by simp)
            · rw [hA k hkP hk0] at hsuf
              exact absurd hsuf (by simp)
        · have heq : replace pat repl (c :: cs) = c :: replace pat repl cs := by
            simp only [replace]
            rw [dif_neg (by tauto)]
          rw [heq]
          have hR' : occurs pat (replace pat repl cs) = false := by
            refine ihn cs ?_
            simp only [List.length_cons] at hle
            omega
          rw [occurs, Bool.or_eq_false_iff]
          refine ⟨?_, hR'⟩
          cases hfin : startsWith pat (c :: replace pat repl cs) with
          | false => rfl
          | true =>
            exfalso
            nth_rewrite 1 [hPc] at hfin
            rw [startsWith, Bool.and_eq_true, beq_iff_eq] at hfin
            obtain ⟨hp0, hu⟩ := hfin
            by_cases hunil : u = []
            · apply hsw
              rw [hPc, hunil, startsWith, Bool.and_eq_true]
              exact ⟨by simp [hp0], rfl⟩
            · have hul : u.length ≤ repl.length := by
                have h3 : (p0 :: u).length ≤ repl.length + 1 := hPc ▸ hlen
                simp only [List.length_cons] at h3
                omega
              rcases replace_prefix_cases pat repl hpat cs u hunil hul hu with
                h1 | ⟨u1, u2, hequ, hu2, hsw2, hswr⟩
              · apply hsw
                rw [hPc, startsWith, Bool.and_eq_true]
                exact ⟨by simp [hp0], h1⟩
              · have hj : pat.drop (1 + u1.length) = u2 := by
                  rw [hPc, hequ]
                  rw [show (1 + u1.length) = u1.length + 1 from by omega]
                  rw [List.drop_succ_cons, List.drop_left]
                have hjlt : 1 + u1.length < pat.length := by
                  rw [hPc, hequ]
                  simp only [List.length_cons, List.length_append]
                  have : 1 ≤ u2.length := by
                    cases u2 with
                    | nil => exact absurd rfl hu2
                    | cons a l => simp
                  omega
                have hBsj := hBs (1 + u1.length) hjlt (by omega)
                rw [hj, hswr] at hBsj
                exact absurd hBsj (by simp)
  intro s
  exact main s.length s le_rfl

/-- C9: for every input string, the escaped output contains no line separator
    U+2028, no paragraph separator U+2029, no `<!--`, no `-->` and no `</` —
    including occurrences that could be formed across the boundaries of
    earlier replacements. -/
theorem js_escape_no_markup (s : Str) :
    occurs [u2028] (js_escape s) = false ∧
      occurs [u2029] (js_escape s) = false ∧
      occurs patCmtOpen (js_escape s) = false ∧
      occurs patCmtClose (js_escape s) = false ∧
      occurs patTagClose (js_escape s) = false := by
  unfold js_escape
  set s1 := replace [u2028] rep2028 s with hs1
  set s2 := replace [u2029] rep2029 s1 with hs2
  set s3 := replace patCmtOpen repCmtOpen s2 with hs3
  set s4 := replace patCmtClose repCmtClose s3 with hs4
  have h28s1 : occurs [u2028] s1 = false :=
    replace_removes [u2028] rep2028 (by decide) (by decide) (by decide) (by decide)
      (by decide) s
  have h28s2 : occurs [u2028] s2 = false :=
    replace_preserves_absent [u2029] rep2029 [u2028] (by decide) (by decide) (by decide)
      (by decide) (by decide) (by decide) s1 h28s1
  have h28s3 : occurs [u2028] s3 = false :=
    replace_preserves_absent patCmtOpen repCmtOpen [u2028] (by decide) (by decide) (by decide)
      (by decide) (by decide) (by decide) s2 h28s2
  have h28s4 : occurs [u2028] s4 = false :=
    replace_preserves_absent patCmtClose repCmtClose [u2028] (by decide) (by decide) (by decide)
      (by decide) (by decide) (by decide) s3 h28s3
  have h28s5 : occurs [u2028] (replace patTagClose repTagClose s4) = false :=
    replace_preserves_absent patTagClose repTagClose [u2028] (by decide) (by decide) (by decide)
      (by decide) (by decide) (by decide) s4 h28s4
  have h29s2 : occurs [u2029] s2 = false :=
    replace_removes [u2029] rep2029 (by decide) (by decide) (by decide) (by decide)
      (by decide) s1
  have h29s3 : occurs [u2029] s3 = false :=
    replace_preserves_absent patCmtOpen repCmtOpen [u2029] (by decide) (by decide) (by decide)
      (by decide) (by decide) (by decide) s2 h29s2
  have h29s4 : occurs [u2029] s4 = false :=
    replace_preserves_absent patCmtClose repCmtClose [u2029] (by decide) (by decide) (by decide)
      (by decide) (by decide) (by decide) s3 h29s3
  have h29s5 : occurs [u2029] (replace patTagClose repTagClose s4) = false :=
    replace_preserves_absent patTagClose repTagClose [u2029] (by decide) (by decide) (by decide)
      (by decide) (by decide) (by decide) s4 h29s4
  have hcos3 : occurs patCmtOpen s3 = false :=
    replace_removes patCmtOpen repCmtOpen (by decide) (by decide) (by decide) (by decide)
      (by decide) s2
  have hcos4 : occurs patCmtOpen s4 = false :=
    replace_preserves_absent patCmtClose repCmtClose patCmtOpen (by decide) (by decide)
      (by decide) (by decide) (by decide) (by decide) s3 hcos3
  have hcos5 : occurs patCmtOpen (replace patTagClose repTagClose s4) = false :=
    replace_preserves_absent patTagClose repTagClose patCmtOpen (by decide) (by decide)
      (by decide) (by decide) (by decide) (by decide) s4 hcos4
  have hccs4 : occurs patCmtClose s4 = false :=
    replace_removes patCmtClose repCmtClose (by decide) (by decide) (by decide) (by decide)
      (by decide) s3
  have hccs5 : occurs patCmtClose (replace patTagClose repTagClose s4) = false :=
    replace_preserves_absent patTagClose repTagClose patCmtClose (by decide) (by decide)
      (by decide) (by decide) (by decide) (by decide) s4 hccs4
  have htcs5 : occurs patTagClose (replace patTagClose repTagClose s4) = false :=
    replace_removes patTagClose repTagClose (by decide) (by decide) (by decide) (by decide)
      (by decide) s4
  exact ⟨h28s5, h29s5, hcos5, hccs5, htcs5⟩
